import Mathlib

/-!
Verification development for the Psi chat-window subsystem:
the chat dialog controller (`src/chatdlg.cpp`), the iconset resolution
engine (`src/psiiconset.cpp`) and the options-tree XML writer
(`src/tools/optionstree/optionstreewriter.cpp`), shallowly embedded in Lean.
Strings are modelled by Lean `String` (`QString` comparison is code-point
lexicographic, which coincides with the `List Char` lexicographic order used
here on the ASCII data appearing in all concrete inputs).
-/

namespace Psi

/-! ## QString primitives

`isPfxOf p s` models `QString::startsWith` (with arguments flipped:
`s.startsWith(p)`), `sLtAux` models `operator<(QString, QString)`
(lexicographic by code point), and `occursFrom` models
`QString::indexOf(needle, from) != -1`. -/

def isPfxOf : List Char → List Char → Bool
  | [], _ => true
  | _ :: _, [] => false
  | a :: as, b :: bs => a == b && isPfxOf as bs

def sLtAux : List Char → List Char → Bool
  | [], [] => false
  | [], _ :: _ => true
  | _ :: _, [] => false
  | a :: as, b :: bs => if a < b then true else if b < a then false else sLtAux as bs

def keyLt (a b : String) : Bool := sLtAux a.data b.data

def strStarts (s p : String) : Bool := isPfxOf p.data s.data

def sublistAt (hay need : List Char) (i : Nat) : Bool :=
  (hay.drop i).take need.length == need

def occursFrom (hay need : List Char) (off : Nat) : Bool :=
  (List.range (hay.length + 1)).any (fun i => Nat.ble off i && sublistAt hay need i)

/-! ## PsiIconset: client icon classifier (`caps2client`)

`ClientIconCheck` is the struct of the same name in `psiiconset.cpp`:
an icon name plus the list of required substrings (`inside`).  The
`ClientIconMap` (`QMap<QString, QList<ClientIconCheck>>`) is modelled as its
entry list in ascending key order; `loadClients` always appends the boundary
entry `("~", [])`. -/

structure ClientIconCheck where
  icon : String
  inside : List String
deriving DecidableEq

abbrev ClientIconMap := List (String × List ClientIconCheck)

/-- The trailing check of `caps2client`: the predecessor entry (`--it`) is
used only when `name` starts with its key; otherwise no entry is selected. -/
def prevCheck (name : String) : Option (String × List ClientIconCheck) →
    Option (String × List ClientIconCheck)
  | some p => if strStarts name p.1 then some p else none
  | none => none

/-- `QMap::lowerBound(name)` followed by the two-disjunct test in
`caps2client`: walk the entries in ascending key order carrying the previous
entry; at the first entry whose key is not `< name` (the lower bound), use it
if `name` starts with its key, else fall back to the predecessor; if every key
is `< name` (lower bound = `end()`), fall back to the last entry. -/
def lbSelect (name : String) : ClientIconMap →
    Option (String × List ClientIconCheck) → Option (String × List ClientIconCheck)
  | [], prev => prevCheck name prev
  | e :: rest, prev =>
    if keyLt e.1 name then lbSelect name rest (some e)
    else if strStarts name e.1 then some e
    else prevCheck name prev

/-- The inner loop of `caps2client`: scan the entry's checks in order; a check
with empty `inside` is an immediate match, otherwise all `inside` strings must
occur in `name` at offset `≥ off` (`name.indexOf(s, it.key().size()) != -1`). -/
def scanChecks (name : String) (off : Nat) : List ClientIconCheck → String
  | [] => ""
  | ic :: rest =>
    if ic.inside.isEmpty then ic.icon
    else if ic.inside.all (fun s => occursFrom name.data s.data off) then ic.icon
    else scanChecks name off rest

/-- `PsiIconset::caps2client` (psiiconset.cpp:1005-1034). -/
def caps2client (cm : ClientIconMap) (name : String) : String :=
  if cm.isEmpty then ""
  else
    match lbSelect name cm none with
    | none => ""
    | some e => scanChecks name e.1.length e.2

/-- The longest registered key that `name` starts with (the claim's notion of
"longest registered prefix", written from the spec's words, not the code). -/
def longestPfxEntry (cm : ClientIconMap) (name : String) :
    Option (String × List ClientIconCheck) :=
  cm.foldl
    (fun acc e =>
      if strStarts name e.1 then
        match acc with
        | none => some e
        | some a => if a.1.length < e.1.length then some e else acc
      else acc)
    none

/-- Modelled from the spec: the classifier the claim describes — find the
longest registered key `name` starts with and scan that entry's rules. -/
def caps2clientClaim (cm : ClientIconMap) (name : String) : String :=
  if cm.isEmpty then ""
  else
    match longestPfxEntry cm name with
    | none => ""
    | some e => scanChecks name e.1.length e.2

/-- First entry whose key equals `name`. -/
def findEqEntry (name : String) (cm : ClientIconMap) :
    Option (String × List ClientIconCheck) :=
  cm.find? (fun e => e.1 == name)

/-- The entry with the greatest key that is `< name` (order-independent max). -/
def greatestBelow (name : String) : ClientIconMap →
    Option (String × List ClientIconCheck)
  | [] => none
  | e :: rest =>
    if keyLt e.1 name then
      match greatestBelow name rest with
      | some g => if keyLt e.1 g.1 then some g else some e
      | none => some e
    else greatestBelow name rest

/-- The entry `caps2client` actually consults: the exact-key entry if `name`
is itself a registered key, otherwise the greatest registered key below
`name`, and that one only if `name` starts with it. -/
def amendedSelect (name : String) (cm : ClientIconMap) :
    Option (String × List ClientIconCheck) :=
  match findEqEntry name cm with
  | some e => some e
  | none => prevCheck name (greatestBelow name cm)

/-- The amended classifier behaviour. -/
def caps2clientAmended (cm : ClientIconMap) (name : String) : String :=
  if cm.isEmpty then ""
  else
    match amendedSelect name cm with
    | none => ""
    | some e => scanChecks name e.1.length e.2

/-- Concrete rule table for the C5 counterexample, shaped exactly as
`loadClients` builds it (ascending keys, boundary entry `"~"`): icon
`clientA` for caps starting with `a`, icon `clientABC` for caps starting
with `abc`. -/
def cmEx : ClientIconMap :=
  [("a", [{ icon := "clientA", inside := [] }]),
   ("abc", [{ icon := "clientABC", inside := [] }]),
   ("~", [])]

/-! Ascending-key well-formedness of a `ClientIconMap`. -/

abbrev CMapSorted (cm : ClientIconMap) : Prop :=
  List.Pairwise (fun a b => keyLt a.1 b.1 = true) cm

/-! ## PsiIconset: three-tier status icon resolution (`Private::jid2icon`)

`QRegExp` values are modelled abstractly by their emptiness flag plus their
match predicate (`indexIn(s) != -1`); an `Iconset` by its icon-name lookup
table and the roster (`QHash<QString, Iconset *>`) by an association list
(`roster.value(k)` is null — `none` — for absent keys). -/

structure RegExpM where
  isEmpty : Bool
  test : String → Bool

structure IconsetItem where
  regexp : RegExpM
  iconset : String

abbrev IconsetM := List (String × String)

abbrev RosterM := List (String × IconsetM)

structure JidM where
  node : String
  domain : String

/-- `XMPP::Jid::bare()`. -/
def JidM.bare (j : JidM) : String :=
  if j.node.isEmpty then j.domain else j.node ++ "@" ++ j.domain

/-- `psi->roster.value(item.iconset)` followed by `is->icon(iconName)`. -/
def rosterIcon (roster : RosterM) (iconsetName iconName : String) : Option String :=
  match roster.find? (fun r => r.1 == iconsetName) with
  | some r => (r.2.find? (fun i => i.1 == iconName)).map Prod.snd
  | none => none

/-- The tier-2 match test: an empty pattern is a match exactly when the JID has
no node part, otherwise the pattern is run on the domain
(psiiconset.cpp:188). -/
def tier2Matches (item : IconsetItem) (jid : JidM) : Bool :=
  if item.regexp.isEmpty then jid.node.isEmpty else item.regexp.test jid.domain

/-- One tier of `jid2icon`: scan the items in registration order; the first
matching item whose iconset actually contains `iconName` supplies the
icon (`break`); a matching item whose iconset is missing or lacks the icon is
skipped. -/
def tierScan (roster : RosterM) (iconName : String) (mtest : IconsetItem → Bool) :
    List IconsetItem → Option String
  | [] => none
  | item :: rest =>
    if mtest item then
      match rosterIcon roster item.iconset iconName with
      | some i => some i
      | none => tierScan roster iconName mtest rest
    else tierScan roster iconName mtest rest

/-- `PsiIconset::Private::jid2icon` (psiiconset.cpp:180-216): tier 1 is the
global default icon, tier 2 (transport/service rules, `status_icons.list`)
runs only when the JID has no node part or `useServicesIcons` is set, tier 3
(custom rules, `status_icons.customList`) runs last and overwrites. -/
def jid2icon (defaultIcon : Option String) (useServicesIcons : Bool)
    (list customList : List IconsetItem) (roster : RosterM)
    (jid : JidM) (iconName : String) : Option String :=
  let icon1 := defaultIcon
  let icon2 :=
    if jid.node.isEmpty || useServicesIcons then
      match tierScan roster iconName (fun it => tier2Matches it jid) list with
      | some i => some i
      | none => icon1
    else icon1
  match tierScan roster iconName (fun it => it.regexp.test jid.bare) customList with
  | some i => some i
  | none => icon2

/-! ## ChatDlg: message views and the dispatch pipeline

The model keeps the `ChatDlg` members the claims are about: `pending_`,
`keepOpen_`, `warnSend_`, `lastWasEncrypted_`, `historyState` and the
`delayedMessages` buffer, plus whether this session is the active tab
(`isActiveTab()`, maintained by the tab manager and toggled by the
`activated()`/`deactivated()` callbacks).  UI-only side effects (track bar,
window flashing/raising, timers that later clear `keepOpen_`/`warnSend_`)
are outside the model.  A `MessageView` carries the fields the dispatch
logic inspects; `carbonSent` stands for `carbonDirection() == Message::Sent`. -/

inductive MVType where
  | Message
  | System
  | Status
  | Subject
  | URLs
deriving DecidableEq

structure MessageView where
  vtype : MVType
  text : String := ""
  spooled : Bool := false
  isLocal : Bool := false
  carbonSent : Bool := false
deriving DecidableEq

/-- The fields of `XMPP::Message` that `ChatDlg::appendMessage` reads.  A URL
list entry is a `(url, description)` pair. -/
structure Message where
  body : String := ""
  subject : String := ""
  wasEncrypted : Bool := false
  encryptionProtocol : String := ""
  urlList : List (String × String) := []
  carbonSent : Bool := false
deriving DecidableEq

structure DlgSt where
  pending : Nat
  isActiveTab : Bool
  keepOpen : Bool
  warnSend : Bool
  lastWasEncrypted : Bool
  historyState : Bool
  delayed : Option (List MessageView)
deriving DecidableEq

/-- The state set up by the `ChatDlg` constructor (chatdlg.cpp:96-134), after
any history preload has finished: counters and flags cleared,
`lastWasEncrypted_ = false`, no hold buffer. -/
def freshChatSt : DlgSt :=
  { pending := 0, isActiveTab := false, keepOpen := false, warnSend := false,
    lastWasEncrypted := false, historyState := false, delayed := none }

/-! `QMap<QString, QString>` built by repeated `insert` (an existing key's
value is replaced), as `appendMessage` builds `urlsMap`.  Only `size`,
`contains` and `value` are consulted, so insertion order of the entry list is
irrelevant. -/

def qinsert (m : List (String × String)) (k v : String) : List (String × String) :=
  if m.any (fun p => p.1 == k) then m.map (fun p => if p.1 == k then (k, v) else p)
  else m ++ [(k, v)]

def qmapGo (acc : List (String × String)) : List (String × String) → List (String × String)
  | [] => acc
  | p :: rest => qmapGo (qinsert acc p.1 p.2) rest

def qmapOf (l : List (String × String)) : List (String × String) := qmapGo [] l

def qcontains (m : List (String × String)) (k : String) : Bool :=
  m.any (fun p => p.1 == k)

def qvalue (m : List (String × String)) (k : String) : String :=
  match m.find? (fun p => p.1 == k) with
  | some p => p.2
  | none => ""

/-- The text of the encryption-transition System view
(chatdlg.cpp:845-853, icon markup elided). -/
def encTransText (m : Message) (encEnabled : Bool) : String :=
  if encEnabled then
    if m.encryptionProtocol.isEmpty then "Encryption is enabled"
    else m.encryptionProtocol ++ " encryption is enabled"
  else "Encryption is disabled"

/-- The `jabber:x:oob` suppression test of `appendMessage`
(chatdlg.cpp:906-919): show no URLs view when the map holds exactly one URL
equal to the body with an empty description. -/
def urlsSuppressed (body : String) (urlList : List (String × String)) : Bool :=
  let urlsMap := qmapOf urlList
  urlsMap.length == 1 && qcontains urlsMap body && (qvalue urlsMap body).isEmpty

/-- The view-synthesis part of `ChatDlg::appendMessage` (chatdlg.cpp:827-921):
encryption-transition System view (plus `warnSend_` arming), Subject view,
primary Message view, URLs view, in that order, together with the updated
encryption-tracking state.  The HTML body branch, plugin hook and
file-sharing projection are UI collaborators outside the model (the primary
view's text is the plain body). -/
def appendSynth (st : DlgSt) (m : Message) (locl : Bool) : DlgSt × List MessageView :=
  let encChanged := !st.historyState && (st.lastWasEncrypted != m.wasEncrypted)
  let newLast := if st.historyState then st.lastWasEncrypted else m.wasEncrypted
  let encEnabled := newLast
  let st1 := { st with lastWasEncrypted := newLast }
  let st2 :=
    if encChanged && !locl && !encEnabled then { st1 with warnSend := true } else st1
  let vs1 : List MessageView :=
    if encChanged then [{ vtype := MVType.System, text := encTransText m encEnabled }] else []
  let vs2 : List MessageView :=
    if !m.subject.isEmpty then
      [{ vtype := MVType.Subject, text := m.subject, spooled := st.historyState }]
    else []
  let mainView : MessageView :=
    { vtype := MVType.Message, text := m.body, spooled := st.historyState,
      isLocal := locl, carbonSent := m.carbonSent }
  let vs4 : List MessageView :=
    if !m.urlList.isEmpty then
      if urlsSuppressed m.body m.urlList then []
      else [{ vtype := MVType.URLs, spooled := st.historyState }]
    else []
  (st2, vs1 ++ vs2 ++ [mainView] ++ vs4)

/-- `ChatDlg::displayMessage` (chatdlg.cpp:950-983): hand the view to the
chat view (the returned singleton list), bump `pending_` for a non-System,
non-Status, non-spooled, non-carbon-sent view arriving while the tab is not
active, and arm `keepOpen_` for any remote view. -/
def displayMessage (st : DlgSt) (mv : MessageView) : DlgSt × List MessageView :=
  let st1 :=
    if !(mv.vtype == MVType.System) && !(mv.vtype == MVType.Status) && !mv.spooled
        && !st.isActiveTab && !mv.carbonSent then
      { st with pending := st.pending + 1 }
    else st
  let st2 := if !mv.isLocal then { st1 with keepOpen := true } else st1
  (st2, [mv])

/-- `ChatDlg::dispatchMessage` (chatdlg.cpp:942-948). -/
def dispatchMessage (st : DlgSt) (mv : MessageView) : DlgSt × List MessageView :=
  match st.delayed with
  | some l => ({ st with delayed := some (l ++ [mv]) }, [])
  | none => displayMessage st mv

def displayRun (st : DlgSt) : List MessageView → DlgSt × List MessageView
  | [] => (st, [])
  | mv :: rest =>
    let r1 := displayMessage st mv
    let r2 := displayRun r1.1 rest
    (r2.1, r1.2 ++ r2.2)

def dispatchRun (st : DlgSt) : List MessageView → DlgSt × List MessageView
  | [] => (st, [])
  | mv :: rest =>
    let r1 := dispatchMessage st mv
    let r2 := dispatchRun r1.1 rest
    (r2.1, r1.2 ++ r2.2)

/-- `ChatDlg::holdMessages` (chatdlg.cpp:923-940): `true` creates the buffer
if absent; `false` displays the spooled entries, then the non-spooled ones,
and discards the buffer. -/
def holdMessages (st : DlgSt) (hold : Bool) : DlgSt × List MessageView :=
  if hold then
    match st.delayed with
    | none => ({ st with delayed := some [] }, [])
    | some _ => (st, [])
  else
    match st.delayed with
    | some l =>
      let r := displayRun st (l.filter (fun mv => mv.spooled)
        ++ l.filter (fun mv => !mv.spooled))
      ({ r.1 with delayed := none }, r.2)
    | none => (st, [])

/-- `ChatDlg::appendMessage` end to end: synthesize the views, then submit
each to `dispatchMessage`. -/
def appendMessage (st : DlgSt) (m : Message) (locl : Bool) : DlgSt × List MessageView :=
  let r := appendSynth st m locl
  dispatchRun r.1 r.2

/-- Fold of `appendSynth` over a message sequence, collecting the synthesized
views. -/
def runSynth (st : DlgSt) : List (Message × Bool) → DlgSt × List MessageView
  | [] => (st, [])
  | p :: rest =>
    let r1 := appendSynth st p.1 p.2
    let r2 := runSynth r1.1 rest
    (r2.1, r1.2 ++ r2.2)

def countSystem (vs : List MessageView) : Nat :=
  (vs.filter (fun v => v.vtype == MVType.System)).length

/-- Number of flag flips along a sequence, starting from `prev`. -/
def countChanges (prev : Bool) : List Bool → Nat
  | [] => 0
  | f :: fs => (if prev != f then 1 else 0) + countChanges f fs

/-- Remote messages with the given encryption flags and no subject, body or
URLs. -/
def encMsgs (flags : List Bool) : List (Message × Bool) :=
  flags.map (fun b => ({ wasEncrypted := b }, false))

/-! ## ChatDlg: activation and unread tracking -/

inductive UiSignal where
  | messagesRead
deriving DecidableEq

/-- `ChatDlg::activated` (chatdlg.cpp:332-348) combined with the tab
becoming active: clears `pending_` (emitting `messagesRead` when it was
positive). -/
def activatedStep (st : DlgSt) : DlgSt × List UiSignal :=
  (if 0 < st.pending then { st with pending := 0, isActiveTab := true }
   else { st with isActiveTab := true },
   if 0 < st.pending then [UiSignal.messagesRead] else [])

/-- `ChatDlg::deactivated` (chatdlg.cpp:323-330) combined with the tab
losing focus (the `setChatState` call is modelled separately). -/
def deactivatedStep (st : DlgSt) : DlgSt := { st with isActiveTab := false }

/-- The dialog events that touch `pending_`, the active flag or the
dispatch queue. -/
inductive DlgEvent where
  | activated
  | deactivated
  | appendMsg (m : Message) (locl : Bool)
  | dispatch (mv : MessageView)
  | hold (b : Bool)

def dlgStep (st : DlgSt) : DlgEvent → DlgSt
  | DlgEvent.activated => (activatedStep st).1
  | DlgEvent.deactivated => deactivatedStep st
  | DlgEvent.appendMsg m locl => (appendMessage st m locl).1
  | DlgEvent.dispatch mv => (dispatchMessage st mv).1
  | DlgEvent.hold b => (holdMessages st b).1

def dlgRun (st : DlgSt) : List DlgEvent → DlgSt
  | [] => st
  | ev :: rest => dlgRun (dlgStep st ev) rest

/-- The C4 invariant: an active session has no unread messages. -/
def PendingInv (st : DlgSt) : Prop := st.isActiveTab = true → st.pending = 0

/-! Conditions used by the amended C8 statement. -/

/-- Description of the last URL entry (empty for an empty list). -/
def lastDesc : List (String × String) → String
  | [] => ""
  | [p] => p.2
  | _ :: rest => lastDesc rest

/-- The C8 claim's suppression condition, written from the spec's words: a
single-element URL list whose sole entry is the body with no description. -/
abbrev claimSuppressed (body : String) (urlList : List (String × String)) : Prop :=
  urlList = [(body, "")]

/-- Whether a URLs view occurs among the synthesized views. -/
def hasUrlsView (vs : List MessageView) : Bool :=
  vs.any (fun v => v.vtype == MVType.URLs)

/-- The amended suppression condition: every URL text in the (non-empty)
list equals the body and the last entry's description is empty. -/
abbrev amendedSuppressed (body : String) (urlList : List (String × String)) : Prop :=
  urlList ≠ [] ∧ (∀ p ∈ urlList, p.1 = body) ∧ lastDesc urlList = ""

/-! ## ChatDlg: outbound chat-state machine (`setChatState`)

`ChatState` is `XMPP::ChatState`.  The session members `setChatState` reads
and writes are `sendComposingEvents_`, `lastChatState_` and
`contactChatState_`; the relevant options and the contact environment
(`findRelevant` result, first entry's availability, account availability) are
passed explicitly.  A sent protocol message is recorded by its legacy event
markers and its chat-state tag (`StateNone` when no tag was set); the
`eventId` payload is not modelled. -/

inductive ChatState where
  | StateNone
  | StateActive
  | StateComposing
  | StatePaused
  | StateInactive
  | StateGone
deriving DecidableEq, Fintype

inductive MsgEventTag where
  | ComposingEvent
  | CancelEvent
deriving DecidableEq

structure SentMsg where
  events : List MsgEventTag
  chatState : ChatState
deriving DecidableEq

structure ComposingOpts where
  sendComposingEvents : Bool
  sendInactivityEvents : Bool
  dontSendComposingEvents : Bool
deriving DecidableEq, Fintype

structure ContactEnv where
  ulEmpty : Bool
  firstAvailable : Bool
  accountAvailable : Bool
deriving DecidableEq, Fintype

structure ChatStateSess where
  sendComposingEvents_ : Bool
  lastChatState_ : ChatState
  contactChatState_ : ChatState
deriving DecidableEq, Fintype

/-- The privacy transform of `setChatState` (chatdlg.cpp:1007-1010): with
inactivity events disabled, `Gone` and `Inactive` are downgraded to
`Paused` before any further evaluation. -/
def privacyTransform (opt : ComposingOpts) (state0 : ChatState) : ChatState :=
  if !opt.sendInactivityEvents
      && (state0 == ChatState.StateGone || state0 == ChatState.StateInactive) then
    ChatState.StatePaused
  else state0

/-- The legacy event markers attached to the outgoing message
(chatdlg.cpp:1032-1039). -/
def composeEventsFor (sce : Bool) (last state : ChatState) : List MsgEventTag :=
  if sce then
    if state == ChatState.StateComposing then [MsgEventTag.ComposingEvent]
    else if last == ChatState.StateComposing then [MsgEventTag.CancelEvent]
    else []
  else []

/-- The messages handed to `dj_sendMessage` by the send block of
`setChatState` (chatdlg.cpp:1030-1061), for the already privacy-transformed
`state`: with a known contact chat state, the intermediate
`Composing ↔ Inactive` hop first sends the message with chat state
`StatePaused` (the local `Message tm` in the source is built but never
used; `m` itself is re-sent), then the message with the target state;
without one, an event-only message is sent when events are present. -/
def chatStateSends (opt : ComposingOpts) (env : ContactEnv) (st : ChatStateSess)
    (state : ChatState) : List SentMsg :=
  if !opt.dontSendComposingEvents then
    let events := composeEventsFor st.sendComposingEvents_ st.lastChatState_ state
    if !(st.contactChatState_ == ChatState.StateNone) then
      (if ((state == ChatState.StateInactive
              && st.lastChatState_ == ChatState.StateComposing)
            || (state == ChatState.StateComposing
                && st.lastChatState_ == ChatState.StateInactive))
            && env.accountAvailable then
        [{ events := events, chatState := ChatState.StatePaused }]
      else [])
      ++ (if (!events.isEmpty || !(state == ChatState.StateNone))
              && env.accountAvailable then
          [{ events := events, chatState := state }]
        else [])
    else
      if !events.isEmpty && env.accountAvailable then
        [{ events := events, chatState := ChatState.StateNone }]
      else []
  else []

/-- `ChatDlg::setChatState` (chatdlg.cpp:987-1067), returning the updated
session state and the list of messages handed to `dj_sendMessage`, in send
order. -/
def setChatState (opt : ComposingOpts) (env : ContactEnv) (st : ChatStateSess)
    (state0 : ChatState) : ChatStateSess × List SentMsg :=
  if opt.sendComposingEvents
      && (st.sendComposingEvents_ || !(st.contactChatState_ == ChatState.StateNone)) then
    if env.ulEmpty then
      ({ st with sendComposingEvents_ := false, lastChatState_ := ChatState.StateNone }, [])
    else if !env.firstAvailable then
      ({ st with sendComposingEvents_ := false, lastChatState_ := ChatState.StateNone }, [])
    else
      let state := privacyTransform opt state0
      if st.lastChatState_ == ChatState.StateNone
          && !(state == ChatState.StateActive) && !(state == ChatState.StateComposing)
          && !(state == ChatState.StateGone) then
        (st, [])
      else if st.lastChatState_ == ChatState.StateGone
          && state == ChatState.StateInactive then
        (st, [])
      else if state == st.lastChatState_
          || (st.lastChatState_ == ChatState.StateActive
              && state == ChatState.StatePaused) then
        ({ st with lastChatState_ := state }, [])
      else
        let newLast :=
          if !(st.lastChatState_ == ChatState.StateGone)
              || state == ChatState.StateActive then
            state
          else st.lastChatState_
        ({ st with lastChatState_ := newLast }, chatStateSends opt env st state)
  else (st, [])

/-! ## OptionsTreeWriter

`VariantTree` mirrors the member layout read by `writeTree`: child trees,
leaf values, comments and raw unknown fragments, each keyed by name.
`Variant` mirrors the cases of `writeVariant`; primitive values (QString,
int, bool, ...) are collapsed into `vprim` carrying the Qt type name and the
`toString()` text, a byte array carries its base64 text and a key sequence
its `toString()` text.  The XML stream is the list of emitted writer calls;
the output `QIODevice` is carried only as state, exactly as in the source,
which never inspects it. -/

inductive Variant where
  | vprim (tname : String) (text : String)
  | vstrList (l : List String)
  | vlist (l : List Variant)
  | vsize (w h : Int)
  | vrect (x y w h : Int)
  | vbytes (b64 : String)
  | vkeyseq (s : String)

inductive VariantTree where
  | mk (trees : List (String × VariantTree)) (values : List (String × Variant))
      (comments : List (String × String)) (unknowns : List String)

structure OptionsTree where
  tree : VariantTree

structure QIODeviceState where
  isOpen : Bool
  writable : Bool

inductive XEvent where
  | startDocument
  | endDocument
  | dtd (s : String)
  | startElement (name : String)
  | endElement
  | attribute (key value : String)
  | characters (s : String)
  | unknownFragment (s : String)

/-- `writeAttribute("comment", ...)` when the name has a comment. -/
def commentEvents (comments : List (String × String)) (n : String) : List XEvent :=
  match comments.find? (fun c => c.1 == n) with
  | some c => [XEvent.attribute "comment" c.2]
  | none => []

/-- `OptionsTreeWriter::writeVariant` (optionstreewriter.cpp:69-102). -/
def writeVariant : Variant → List XEvent
  | Variant.vprim tname text => [XEvent.attribute "type" tname, XEvent.characters text]
  | Variant.vstrList l =>
    XEvent.attribute "type" "QStringList"
      :: (l.map (fun s => [XEvent.startElement "item", XEvent.characters s,
            XEvent.endElement])).flatten
  | Variant.vlist l =>
    XEvent.attribute "type" "QVariantList"
      :: (l.attach.map (fun x => XEvent.startElement "item"
            :: writeVariant x.1 ++ [XEvent.endElement])).flatten
  | Variant.vsize w h =>
    [XEvent.attribute "type" "QSize",
     XEvent.startElement "width", XEvent.characters (toString w), XEvent.endElement,
     XEvent.startElement "height", XEvent.characters (toString h), XEvent.endElement]
  | Variant.vrect x y w h =>
    [XEvent.attribute "type" "QRect",
     XEvent.startElement "x", XEvent.characters (toString x), XEvent.endElement,
     XEvent.startElement "y", XEvent.characters (toString y), XEvent.endElement,
     XEvent.startElement "width", XEvent.characters (toString w), XEvent.endElement,
     XEvent.startElement "height", XEvent.characters (toString h), XEvent.endElement]
  | Variant.vbytes b64 => [XEvent.attribute "type" "QByteArray", XEvent.characters b64]
  | Variant.vkeyseq s => [XEvent.attribute "type" "QKeySequence", XEvent.characters s]
decreasing_by
  simp_wf
  have := List.sizeOf_lt_of_mem x.2
  omega

/-- `OptionsTreeWriter::writeTree` (optionstreewriter.cpp:39-67); unknown
fragments are re-emitted as opaque events (`writeUnknown` re-parses and
copies them without any failure path). -/
def writeTree : VariantTree → List XEvent
  | VariantTree.mk trees values comments unknowns =>
    (trees.attach.map (fun x => XEvent.startElement x.1.1
        :: commentEvents comments x.1.1 ++ writeTree x.1.2 ++ [XEvent.endElement])).flatten
    ++ (values.map (fun v => XEvent.startElement v.1
        :: commentEvents comments v.1 ++ writeVariant v.2 ++ [XEvent.endElement])).flatten
    ++ unknowns.map XEvent.unknownFragment
decreasing_by
  simp_wf
  have h1 := List.sizeOf_lt_of_mem x.2
  rcases x with ⟨⟨n, t⟩, hmem⟩
  simp only [Prod.mk.sizeOf_spec] at h1
  simp only
  omega

/-- `OptionsTreeWriter::write` (optionstreewriter.cpp:19-37): emit the
document, the DTD, the root element with version and namespace attributes,
the whole tree — and return `true`, with no inspection of the device. -/
def OptionsTreeWriter.write (configName configVersion configNS : String)
    (options : OptionsTree) (_device : QIODeviceState) : List XEvent × Bool :=
  ([XEvent.startDocument,
    XEvent.dtd ("<!DOCTYPE " ++ configName ++ ">"),
    XEvent.startElement configName,
    XEvent.attribute "version" configVersion,
    XEvent.attribute "xmlns" configNS]
   ++ writeTree options.tree
   ++ [XEvent.endDocument], true)

end Psi

namespace Psi

/-! ## Order lemmas for the QString model -/

theorem isPfxOf_self : ∀ l : List Char, isPfxOf l l = true := by
  intro l
  induction l with
  | nil => rfl
  | cons a as ih => simp [isPfxOf, ih]

theorem sLtAux_irrefl : ∀ l : List Char, sLtAux l l = false := by
  intro l
  induction l with
  | nil => rfl
  | cons a as ih => simp [sLtAux, ih]

theorem sLtAux_cons_iff (x y : Char) (xs ys : List Char) :
    sLtAux (x :: xs) (y :: ys) = true ↔ (x < y ∨ (x = y ∧ sLtAux xs ys = true)) := by
  show (if x < y then true else if y < x then false else sLtAux xs ys) = true ↔ _
  by_cases h1 : x < y
  · simp [h1]
  · rw [if_neg h1]
    by_cases h2 : y < x
    · rw [if_pos h2]
      simp [h1, ne_of_gt h2]
    · have h3 : x = y := le_antisymm (not_lt.mp h2) (not_lt.mp h1)
      rw [if_neg h2]
      simp [h1, h3]

theorem sLtAux_trans :
    ∀ a b c : List Char, sLtAux a b = true → sLtAux b c = true → sLtAux a c = true := by
  intro a
  induction a with
  | nil =>
    intro b c hab hbc
    cases b with
    | nil => exact absurd hab (by simp [sLtAux])
    | cons y ys =>
      cases c with
      | nil => exact absurd hbc (by simp [sLtAux])
      | cons z zs => simp [sLtAux]
  | cons x xs ih =>
    intro b c hab hbc
    cases b with
    | nil => exact absurd hab (by simp [sLtAux])
    | cons y ys =>
      cases c with
      | nil => exact absurd hbc (by simp [sLtAux])
      | cons z zs =>
        rw [sLtAux_cons_iff] at hab hbc ⊢
        rcases hab with h1 | ⟨h1, h1t⟩
        · rcases hbc with h2 | ⟨h2, h2t⟩
          · exact Or.inl (lt_trans h1 h2)
          · exact Or.inl (h2 ▸ h1)
        · rcases hbc with h2 | ⟨h2, h2t⟩
          · exact Or.inl (h1 ▸ h2)
          · exact Or.inr ⟨h1.trans h2, ih ys zs h1t h2t⟩

theorem sLtAux_total :
    ∀ a b : List Char, a = b ∨ sLtAux a b = true ∨ sLtAux b a = true := by
  intro a
  induction a with
  | nil =>
    intro b
    cases b with
    | nil => exact Or.inl rfl
    | cons y ys => exact Or.inr (Or.inl (by simp [sLtAux]))
  | cons x xs ih =>
    intro b
    cases b with
    | nil => exact Or.inr (Or.inr (by simp [sLtAux]))
    | cons y ys =>
      rcases lt_trichotomy x y with hxy | hxy | hxy
      · exact Or.inr (Or.inl ((sLtAux_cons_iff x y xs ys).mpr (Or.inl hxy)))
      · subst hxy
        rcases ih ys with h | h | h
        · exact Or.inl (by rw [h])
        · exact Or.inr (Or.inl ((sLtAux_cons_iff x x xs ys).mpr (Or.inr ⟨rfl, h⟩)))
        · exact Or.inr (Or.inr ((sLtAux_cons_iff x x ys xs).mpr (Or.inr ⟨rfl, h⟩)))
      · exact Or.inr (Or.inr ((sLtAux_cons_iff y x ys xs).mpr (Or.inl hxy)))

theorem sLtAux_asymm :
    ∀ a b : List Char, sLtAux a b = true → sLtAux b a = false := by
  intro a b hab
  by_contra h
  have hba : sLtAux b a = true := by
    cases hb : sLtAux b a with
    | false => exact absurd hb h
    | true => rfl
  have : sLtAux a a = true := sLtAux_trans a b a hab hba
  rw [sLtAux_irrefl] at this
  exact Bool.false_ne_true this

theorem isPfxOf_eq_or_lt :
    ∀ p s : List Char, isPfxOf p s = true → p = s ∨ sLtAux p s = true := by
  intro p
  induction p with
  | nil =>
    intro s _
    cases s with
    | nil => exact Or.inl rfl
    | cons b bs => exact Or.inr (by simp [sLtAux])
  | cons a as ih =>
    intro s hp
    cases s with
    | nil => simp [isPfxOf] at hp
    | cons b bs =>
      simp only [isPfxOf, Bool.and_eq_true, beq_iff_eq] at hp
      obtain ⟨hab, hrest⟩ := hp
      subst hab
      rcases ih bs hrest with h | h
      · exact Or.inl (by rw [h])
      · exact Or.inr (by simp [sLtAux, sLtAux_irrefl, h])

theorem keyLt_ne {a b : String} (h : keyLt a b = true) : a ≠ b := by
  intro he
  subst he
  rw [keyLt, sLtAux_irrefl] at h
  exact Bool.false_ne_true h

theorem strStarts_keyLt {s p : String} (h : strStarts s p = true) :
    p = s ∨ keyLt p s = true := by
  rcases isPfxOf_eq_or_lt p.data s.data h with hd | hd
  · exact Or.inl (congrArg String.mk hd)
  · exact Or.inr hd

/-! ## caps2client: the entry actually selected -/

theorem greatestBelow_mem (name : String) :
    ∀ (cm : ClientIconMap) (g : String × List ClientIconCheck),
      greatestBelow name cm = some g → g ∈ cm := by
  intro cm
  induction cm with
  | nil => intro g h; simp [greatestBelow] at h
  | cons e rest ih =>
    intro g h
    rw [greatestBelow] at h
    by_cases hlt : keyLt e.1 name = true
    · rw [if_pos hlt] at h
      cases hgb : greatestBelow name rest with
      | none =>
        rw [hgb] at h
        dsimp only at h
        exact (Option.some.inj h) ▸ List.mem_cons_self e rest
      | some g0 =>
        rw [hgb] at h
        dsimp only at h
        by_cases hk : keyLt e.1 g0.1 = true
        · rw [if_pos hk] at h
          exact (Option.some.inj h) ▸ List.mem_cons_of_mem e (ih g0 hgb)
        · rw [if_neg hk] at h
          exact (Option.some.inj h) ▸ List.mem_cons_self e rest
    · rw [if_neg hlt] at h
      exact List.mem_cons_of_mem e (ih g h)

theorem greatestBelow_none (name : String) :
    ∀ cm : ClientIconMap, (∀ e ∈ cm, keyLt e.1 name = false) →
      greatestBelow name cm = none := by
  intro cm
  induction cm with
  | nil => intro _; rfl
  | cons e rest ih =>
    intro h
    rw [greatestBelow, if_neg, ih]
    · intro x hx
      exact h x (List.mem_cons_of_mem e hx)
    · rw [h e (List.mem_cons_self e rest)]
      exact Bool.false_ne_true

/-- The core of the C5 analysis: on an ascending-key map, `lbSelect` picks
the exact-key entry if present, otherwise falls back (through the predecessor
check) to the greatest key below `name`, or to the carried previous entry
when no map key is below `name`. -/
theorem lbSelect_go (name : String) :
    ∀ (cm : ClientIconMap) (fb : Option (String × List ClientIconCheck)),
      CMapSorted cm →
      (∀ p, fb = some p → (∀ e ∈ cm, keyLt p.1 e.1 = true)) →
      lbSelect name cm fb =
        match findEqEntry name cm with
        | some e => some e
        | none =>
          match greatestBelow name cm with
          | some g => prevCheck name (some g)
          | none => prevCheck name fb := by
  intro cm
  induction cm with
  | nil =>
    intro fb _ _
    simp [lbSelect, findEqEntry, greatestBelow]
  | cons e rest ih =>
    intro fb hs hfb
    have h1 : ∀ x ∈ rest, keyLt e.1 x.1 = true := (List.pairwise_cons.mp hs).1
    have h2 : CMapSorted rest := (List.pairwise_cons.mp hs).2
    rw [lbSelect]
    by_cases hlt : keyLt e.1 name = true
    · rw [if_pos hlt]
      have hne : e.1 ≠ name := keyLt_ne hlt
      have hfind : findEqEntry name (e :: rest) = findEqEntry name rest := by
        unfold findEqEntry
        rw [List.find?_cons_of_neg]
        simp [hne]
      rw [ih (some e) h2 (by intro p hp; cases hp; exact h1)]
      rw [hfind]
      cases hfe : findEqEntry name rest with
      | some x => simp
      | none =>
        simp only
        rw [greatestBelow, if_pos hlt]
        cases hgb : greatestBelow name rest with
        | none => simp
        | some g =>
          have hkg : keyLt e.1 g.1 = true := h1 g (greatestBelow_mem name rest g hgb)
          dsimp only
          rw [if_pos hkg]
    · rw [if_neg hlt]
      by_cases hst : strStarts name e.1 = true
      · rw [if_pos hst]
        have heq : e.1 = name := by
          rcases strStarts_keyLt hst with h | h
          · exact h
          · exact absurd h hlt
        have hfind : findEqEntry name (e :: rest) = some e := by
          unfold findEqEntry
          rw [List.find?_cons_of_pos]
          simp [heq]
        rw [hfind]
      · rw [if_neg hst]
        have hne : e.1 ≠ name := by
          intro h
          rw [h] at hst
          rw [strStarts, isPfxOf_self] at hst
          exact hst rfl
        have hgt : keyLt name e.1 = true := by
          rcases sLtAux_total e.1.data name.data with h | h | h
          · exact absurd (congrArg String.mk h) hne
          · exact absurd h hlt
          · exact h
        have hrest_gt : ∀ x ∈ rest, keyLt name x.1 = true := by
          intro x hx
          exact sLtAux_trans name.data e.1.data x.1.data hgt (h1 x hx)
        have hfind : findEqEntry name (e :: rest) = none := by
          unfold findEqEntry
          rw [List.find?_eq_none]
          intro x hx
          simp only [beq_iff_eq]
          rcases List.mem_cons.mp hx with h | h
          · rw [h]; exact hne
          · intro hxn
            have := hrest_gt x h
            rw [hxn] at this
            rw [keyLt, sLtAux_irrefl] at this
            exact Bool.false_ne_true this
        have hgb : greatestBelow name (e :: rest) = none := by
          apply greatestBelow_none
          intro x hx
          rcases List.mem_cons.mp hx with h | h
          · rw [h]
            exact Bool.not_eq_true _ ▸ (Bool.eq_false_iff.mpr (fun hc => hlt hc))
          · exact sLtAux_asymm name.data x.1.data (hrest_gt x h)
        rw [hfind, hgb]

theorem lbSelect_sorted (name : String) (cm : ClientIconMap) (hs : CMapSorted cm) :
    lbSelect name cm none = amendedSelect name cm := by
  rw [lbSelect_go name cm none hs (by intro p hp; cases hp)]
  unfold amendedSelect
  cases findEqEntry name cm with
  | some e => rfl
  | none =>
    cases greatestBelow name cm with
    | some g => rfl
    | none => rfl

end Psi


namespace Psi

/-! ## jid2icon: tier scan lemmas -/

/-- A scan prefix in which no item both is a match and yields an icon is
skipped. -/
theorem tierScan_append_none (roster : RosterM) (iconName : String)
    (mtest : IconsetItem → Bool) :
    ∀ (pre rest : List IconsetItem),
      (∀ it ∈ pre, mtest it = true → rosterIcon roster it.iconset iconName = none) →
      tierScan roster iconName mtest (pre ++ rest)
        = tierScan roster iconName mtest rest := by
  intro pre
  induction pre with
  | nil => intro rest _; rfl
  | cons p ps ih =>
    intro rest hnone
    rw [List.cons_append, tierScan]
    by_cases hm : mtest p = true
    · rw [if_pos hm, hnone p (List.mem_cons_self p ps) hm]
      exact ih rest (fun it hit hm2 => hnone it (List.mem_cons_of_mem p hit) hm2)
    · rw [if_neg hm]
      exact ih rest (fun it hit hm2 => hnone it (List.mem_cons_of_mem p hit) hm2)

/-- A scan whose head is a match and yields an icon stops there. -/
theorem tierScan_cons_hit (roster : RosterM) (iconName : String)
    (mtest : IconsetItem → Bool) (it : IconsetItem) (rest : List IconsetItem)
    (i : String) (hm : mtest it = true)
    (hi : rosterIcon roster it.iconset iconName = some i) :
    tierScan roster iconName mtest (it :: rest) = some i := by
  rw [tierScan, if_pos hm, hi]

/-- A scan in which no item both is a match and yields an icon returns
nothing. -/
theorem tierScan_none (roster : RosterM) (iconName : String)
    (mtest : IconsetItem → Bool) :
    ∀ items : List IconsetItem,
      (∀ it ∈ items, mtest it = true → rosterIcon roster it.iconset iconName = none) →
      tierScan roster iconName mtest items = none := by
  intro items
  induction items with
  | nil => intro _; rfl
  | cons p ps ih =>
    intro hnone
    rw [tierScan]
    by_cases hm : mtest p = true
    · rw [if_pos hm, hnone p (List.mem_cons_self p ps) hm]
      exact ih (fun it hit hm2 => hnone it (List.mem_cons_of_mem p hit) hm2)
    · rw [if_neg hm]
      exact ih (fun it hit hm2 => hnone it (List.mem_cons_of_mem p hit) hm2)

end Psi


namespace Psi

/-! ## Dispatch queue lemmas -/

theorem displayMessage_snd (st : DlgSt) (mv : MessageView) :
    (displayMessage st mv).2 = [mv] := rfl

theorem displayMessage_isActiveTab (st : DlgSt) (mv : MessageView) :
    (displayMessage st mv).1.isActiveTab = st.isActiveTab := by
  unfold displayMessage
  dsimp only
  split <;> split <;> rfl

theorem displayMessage_delayed (st : DlgSt) (mv : MessageView) :
    (displayMessage st mv).1.delayed = st.delayed := by
  unfold displayMessage
  dsimp only
  split <;> split <;> rfl

theorem displayRun_snd :
    ∀ (l : List MessageView) (st : DlgSt), (displayRun st l).2 = l := by
  intro l
  induction l with
  | nil => intro st; rfl
  | cons mv rest ih =>
    intro st
    unfold displayRun
    dsimp only
    rw [displayMessage_snd, ih]
    rfl

theorem displayRun_delayed :
    ∀ (l : List MessageView) (st : DlgSt), (displayRun st l).1.delayed = st.delayed := by
  intro l
  induction l with
  | nil => intro st; rfl
  | cons mv rest ih =>
    intro st
    unfold displayRun
    dsimp only
    rw [ih, displayMessage_delayed]

theorem dispatchMessage_buffered (st : DlgSt) (mv : MessageView)
    (l : List MessageView) (h : st.delayed = some l) :
    dispatchMessage st mv = ({ st with delayed := some (l ++ [mv]) }, []) := by
  unfold dispatchMessage
  rw [h]

theorem dispatchRun_buffered :
    ∀ (vs : List MessageView) (st : DlgSt) (l : List MessageView),
      st.delayed = some l →
      dispatchRun st vs = ({ st with delayed := some (l ++ vs) }, []) := by
  intro vs
  induction vs with
  | nil =>
    intro st l h
    obtain ⟨p, a, k, w, e, hs, d⟩ := st
    simp only at h
    subst h
    simp [dispatchRun]
  | cons mv rest ih =>
    intro st l h
    unfold dispatchRun
    rw [dispatchMessage_buffered st mv l h]
    dsimp only
    rw [ih { st with delayed := some (l ++ [mv]) } (l ++ [mv]) rfl]
    simp

end Psi

namespace Psi

/-! ## Pending-counter lemmas (C4) -/

theorem displayMessage_pending_pos (st : DlgSt) (mv : MessageView)
    (hg : (!(mv.vtype == MVType.System) && !(mv.vtype == MVType.Status) && !mv.spooled
      && !st.isActiveTab && !mv.carbonSent) = true) :
    (displayMessage st mv).1.pending = st.pending + 1 := by
  unfold displayMessage
  dsimp only
  rw [hg]
  split <;> rfl

theorem displayMessage_pending_neg (st : DlgSt) (mv : MessageView)
    (hg : (!(mv.vtype == MVType.System) && !(mv.vtype == MVType.Status) && !mv.spooled
      && !st.isActiveTab && !mv.carbonSent) = false) :
    (displayMessage st mv).1.pending = st.pending := by
  unfold displayMessage
  dsimp only
  rw [hg]
  split <;> rfl

theorem pendingInv_displayMessage (st : DlgSt) (mv : MessageView)
    (h : PendingInv st) : PendingInv (displayMessage st mv).1 := by
  unfold PendingInv at h ⊢
  rw [displayMessage_isActiveTab]
  intro ha
  have hg : (!(mv.vtype == MVType.System) && !(mv.vtype == MVType.Status) && !mv.spooled
      && !st.isActiveTab && !mv.carbonSent) = false := by
    simp [ha]
  rw [displayMessage_pending_neg st mv hg]
  exact h ha

theorem displayRun_isActiveTab :
    ∀ (l : List MessageView) (st : DlgSt),
      (displayRun st l).1.isActiveTab = st.isActiveTab := by
  intro l
  induction l with
  | nil => intro st; rfl
  | cons mv rest ih =>
    intro st
    unfold displayRun
    dsimp only
    rw [ih, displayMessage_isActiveTab]

theorem pendingInv_displayRun :
    ∀ (l : List MessageView) (st : DlgSt),
      PendingInv st → PendingInv (displayRun st l).1 := by
  intro l
  induction l with
  | nil => intro st h; exact h
  | cons mv rest ih =>
    intro st h
    unfold displayRun
    dsimp only
    exact ih _ (pendingInv_displayMessage st mv h)

theorem dispatchMessage_isActiveTab (st : DlgSt) (mv : MessageView) :
    (dispatchMessage st mv).1.isActiveTab = st.isActiveTab := by
  unfold dispatchMessage
  cases h : st.delayed with
  | some l => rfl
  | none => exact displayMessage_isActiveTab st mv

theorem pendingInv_dispatchMessage (st : DlgSt) (mv : MessageView)
    (h : PendingInv st) : PendingInv (dispatchMessage st mv).1 := by
  unfold dispatchMessage
  cases hd : st.delayed with
  | some l => exact h
  | none => exact pendingInv_displayMessage st mv h

theorem pendingInv_dispatchRun :
    ∀ (l : List MessageView) (st : DlgSt),
      PendingInv st → PendingInv (dispatchRun st l).1 := by
  intro l
  induction l with
  | nil => intro st h; exact h
  | cons mv rest ih =>
    intro st h
    unfold dispatchRun
    dsimp only
    exact ih _ (pendingInv_dispatchMessage st mv h)

theorem appendSynth_pending (st : DlgSt) (m : Message) (locl : Bool) :
    (appendSynth st m locl).1.pending = st.pending := by
  unfold appendSynth
  dsimp only
  split <;> split <;> rfl

theorem appendSynth_isActiveTab (st : DlgSt) (m : Message) (locl : Bool) :
    (appendSynth st m locl).1.isActiveTab = st.isActiveTab := by
  unfold appendSynth
  dsimp only
  split <;> split <;> rfl

theorem pendingInv_appendMessage (st : DlgSt) (m : Message) (locl : Bool)
    (h : PendingInv st) : PendingInv (appendMessage st m locl).1 := by
  unfold appendMessage
  dsimp only
  apply pendingInv_dispatchRun
  unfold PendingInv
  rw [appendSynth_isActiveTab, appendSynth_pending]
  exact h

theorem pendingInv_holdMessages (st : DlgSt) (b : Bool)
    (h : PendingInv st) : PendingInv (holdMessages st b).1 := by
  unfold holdMessages
  cases b with
  | true =>
    cases hd : st.delayed with
    | none =>
      dsimp only
      intro ha
      exact h ha
    | some l =>
      dsimp only
      exact h
  | false =>
    cases hd : st.delayed with
    | none =>
      dsimp only
      exact h
    | some l =>
      dsimp only
      have h1 := pendingInv_displayRun
        (l.filter (fun mv => mv.spooled) ++ l.filter (fun mv => !mv.spooled)) st h
      intro ha
      exact h1 ha

theorem pendingInv_activated (st : DlgSt) : PendingInv (activatedStep st).1 := by
  unfold activatedStep PendingInv
  dsimp only
  split
  · intro _
    rfl
  · intro ha
    rename_i hp
    exact Nat.eq_zero_of_not_pos hp

theorem pendingInv_step (st : DlgSt) (ev : DlgEvent)
    (h : PendingInv st) : PendingInv (dlgStep st ev) := by
  cases ev with
  | activated => exact pendingInv_activated st
  | deactivated =>
    unfold dlgStep deactivatedStep PendingInv
    intro ha
    simp at ha
  | appendMsg m locl => exact pendingInv_appendMessage st m locl h
  | dispatch mv => exact pendingInv_dispatchMessage st mv h
  | hold b => exact pendingInv_holdMessages st b h

theorem pendingInv_run :
    ∀ (evs : List DlgEvent) (st : DlgSt),
      PendingInv st → PendingInv (dlgRun st evs) := by
  intro evs
  induction evs with
  | nil => intro st h; exact h
  | cons ev rest ih =>
    intro st h
    unfold dlgRun
    exact ih _ (pendingInv_step st ev h)

end Psi

namespace Psi

/-! ## URL-map lemmas (C8) -/

theorem qinsert_nil (k v : String) : qinsert [] k v = [(k, v)] := rfl

theorem mem_keys_qinsert_self (m : List (String × String)) (k v : String) :
    k ∈ (qinsert m k v).map Prod.fst := by
  unfold qinsert
  by_cases h : m.any (fun p => p.1 == k) = true
  · rw [if_pos h]
    rw [List.any_eq_true] at h
    obtain ⟨p, hp, hpk⟩ := h
    rw [beq_iff_eq] at hpk
    rw [List.map_map]
    refine List.mem_map.mpr ⟨p, hp, ?_⟩
    simp [hpk]
  · rw [if_neg h]
    rw [List.map_append]
    exact List.mem_append_right _ (by simp)

theorem mem_keys_qinsert_of_mem (m : List (String × String)) (k v x : String)
    (h : x ∈ m.map Prod.fst) : x ∈ (qinsert m k v).map Prod.fst := by
  unfold qinsert
  by_cases hc : m.any (fun p => p.1 == k) = true
  · rw [if_pos hc]
    obtain ⟨p, hp, hpx⟩ := List.mem_map.mp h
    rw [List.map_map]
    refine List.mem_map.mpr ⟨p, hp, ?_⟩
    by_cases hpk : (p.1 == k) = true
    · rw [beq_iff_eq] at hpk
      simp [hpk, ← hpx, hpk]
    · simp only [Function.comp]
      rw [if_neg hpk]
      exact hpx
  · rw [if_neg hc]
    rw [List.map_append]
    exact List.mem_append_left _ h

theorem mem_keys_qmapGo_acc :
    ∀ (l : List (String × String)) (acc : List (String × String)) (x : String),
      x ∈ acc.map Prod.fst → x ∈ (qmapGo acc l).map Prod.fst := by
  intro l
  induction l with
  | nil => intro acc x h; exact h
  | cons p rest ih =>
    intro acc x h
    unfold qmapGo
    exact ih _ x (mem_keys_qinsert_of_mem acc p.1 p.2 x h)

theorem mem_keys_qmapGo :
    ∀ (l : List (String × String)) (acc : List (String × String))
      (p : String × String), p ∈ l → p.1 ∈ (qmapGo acc l).map Prod.fst := by
  intro l
  induction l with
  | nil => intro acc p h; cases h
  | cons q rest ih =>
    intro acc p h
    rcases List.mem_cons.mp h with h | h
    · subst h
      unfold qmapGo
      exact mem_keys_qmapGo_acc rest _ p.1 (mem_keys_qinsert_self acc p.1 p.2)
    · unfold qmapGo
      exact ih _ p h

theorem qinsert_single (b v w : String) : qinsert [(b, v)] b w = [(b, w)] := by
  simp [qinsert]

theorem qmapGo_allsame :
    ∀ (l : List (String × String)) (b v : String), (∀ p ∈ l, p.1 = b) →
      qmapGo [(b, v)] l = [(b, lastDesc ((b, v) :: l))] := by
  intro l
  induction l with
  | nil => intro b v _; rfl
  | cons q rest ih =>
    intro b v hall
    have hq : q.1 = b := hall q (List.mem_cons_self q rest)
    unfold qmapGo
    have : qinsert [(b, v)] q.1 q.2 = [(b, q.2)] := by
      rw [hq]
      exact qinsert_single b v q.2
    rw [this]
    rw [ih b q.2 (fun p hp => hall p (List.mem_cons_of_mem q hp))]
    cases rest with
    | nil => rfl
    | cons r rs => rfl

theorem qmapOf_allsame (l : List (String × String)) (q : String × String)
    (rest : List (String × String)) (b : String) (hl : l = q :: rest)
    (hall : ∀ p ∈ l, p.1 = b) :
    qmapOf l = [(b, lastDesc l)] := by
  subst hl
  have hq : q.1 = b := hall q (List.mem_cons_self q rest)
  unfold qmapOf qmapGo
  have : qinsert [] q.1 q.2 = [(b, q.2)] := by rw [hq]; rfl
  rw [this]
  rw [qmapGo_allsame rest b q.2 (fun p hp => hall p (List.mem_cons_of_mem q hp))]
  have : lastDesc ((b, q.2) :: rest) = lastDesc (q :: rest) := by
    cases rest with
    | nil => rfl
    | cons r rs => rfl
  rw [this]

theorem urlsSuppressed_iff (body : String) :
    ∀ l : List (String × String), l ≠ [] →
      (urlsSuppressed body l = true ↔ ((∀ p ∈ l, p.1 = body) ∧ lastDesc l = "")) := by
  intro l hne
  cases l with
  | nil => exact absurd rfl hne
  | cons q rest =>
    constructor
    · intro hs
      simp only [urlsSuppressed, Bool.and_eq_true] at hs
      obtain ⟨⟨hlen, hcon⟩, hval⟩ := hs
      rw [Nat.beq_eq_true_eq] at hlen
      obtain ⟨e, he⟩ := List.length_eq_one.mp hlen
      have hkey : e.1 = body := by
        unfold qcontains at hcon
        rw [he] at hcon
        rw [List.any_eq_true] at hcon
        obtain ⟨p, hp, hpb⟩ := hcon
        rw [beq_iff_eq] at hpb
        rcases List.mem_singleton.mp hp with h
        rw [h] at hpb
        exact hpb
      have hall : ∀ p ∈ q :: rest, p.1 = body := by
        intro p hp
        have := mem_keys_qmapGo (q :: rest) [] p hp
        rw [show qmapGo [] (q :: rest) = qmapOf (q :: rest) from rfl, he] at this
        simp at this
        rw [this, hkey]
      refine ⟨hall, ?_⟩
      have hmap := qmapOf_allsame (q :: rest) q rest body rfl hall
      rw [hmap] at hval
      unfold qvalue at hval
      simp at hval
      rwa [String.isEmpty_iff] at hval
    · intro h
      obtain ⟨hall, hlast⟩ := h
      have hmap := qmapOf_allsame (q :: rest) q rest body rfl hall
      simp only [urlsSuppressed]
      rw [hmap, hlast]
      simp [qcontains, qvalue, String.isEmpty_iff]

end Psi

namespace Psi

/-! ## Encryption-transition counting (C1) -/

theorem countSystem_append (a b : List MessageView) :
    countSystem (a ++ b) = countSystem a + countSystem b := by
  simp [countSystem, List.filter_append]

theorem encMsgs_cons (b : Bool) (fs : List Bool) :
    encMsgs (b :: fs) = (({ wasEncrypted := b } : Message), false) :: encMsgs fs := rfl

theorem appendSynth_historyState (st : DlgSt) (m : Message) (locl : Bool) :
    (appendSynth st m locl).1.historyState = st.historyState := by
  unfold appendSynth
  dsimp only
  split <;> split <;> rfl

theorem appendSynth_lastWasEncrypted (st : DlgSt) (m : Message) (locl : Bool)
    (h : st.historyState = false) :
    (appendSynth st m locl).1.lastWasEncrypted = m.wasEncrypted := by
  obtain ⟨p, a, k, w, le, hs, d⟩ := st
  simp only at h
  subst h
  unfold appendSynth
  dsimp only
  split
  · rename_i hcontra
    exact absurd hcontra (by decide)
  · split <;> rfl

theorem appendSynth_countSystem_enc (st : DlgSt) (b : Bool)
    (h : st.historyState = false) :
    countSystem (appendSynth st ({ wasEncrypted := b } : Message) false).2
      = if st.lastWasEncrypted != b then 1 else 0 := by
  obtain ⟨p, a, k, w, le, hs, d⟩ := st
  simp only at h
  subst h
  unfold appendSynth
  by_cases hb : (le != b) = true
  · simp [hb, countSystem]
  · rw [Bool.not_eq_true] at hb
    simp [hb, countSystem]

theorem runSynth_countSystem :
    ∀ (flags : List Bool) (st : DlgSt), st.historyState = false →
      countSystem (runSynth st (encMsgs flags)).2
        = countChanges st.lastWasEncrypted flags := by
  intro flags
  induction flags with
  | nil => intro st _; rfl
  | cons b fs ih =>
    intro st h
    rw [encMsgs_cons]
    unfold runSynth
    dsimp only
    rw [countSystem_append]
    have h1 : (appendSynth st { wasEncrypted := b } false).1.historyState = false := by
      rw [appendSynth_historyState]
      exact h
    have h2 : (appendSynth st { wasEncrypted := b } false).1.lastWasEncrypted = b :=
      appendSynth_lastWasEncrypted st _ false h
    rw [ih _ h1, h2]
    rw [appendSynth_countSystem_enc st b h]
    rfl

end Psi

namespace Psi

/-! ## Flush and URLs-view helpers -/

theorem holdMessages_flush (st : DlgSt) (l : List MessageView)
    (h : st.delayed = some l) :
    (holdMessages st false).2
      = l.filter (fun mv => mv.spooled) ++ l.filter (fun mv => !mv.spooled)
    ∧ (holdMessages st false).1.delayed = none := by
  unfold holdMessages
  rw [if_neg (by decide)]
  rw [h]
  dsimp only
  exact ⟨displayRun_snd _ st, rfl⟩

theorem hasUrlsView_appendSynth (st : DlgSt) (m : Message) (locl : Bool)
    (h : m.urlList ≠ []) :
    hasUrlsView (appendSynth st m locl).2 = !urlsSuppressed m.body m.urlList := by
  have hne : m.urlList.isEmpty = false := by
    cases hl : m.urlList with
    | nil => exact absurd hl h
    | cons a b => rfl
  unfold appendSynth hasUrlsView
  dsimp only
  by_cases h1 : (!st.historyState && (st.lastWasEncrypted != m.wasEncrypted)) = true <;>
    by_cases h2 : m.subject.isEmpty = true <;>
      by_cases h3 : urlsSuppressed m.body m.urlList = true <;>
        simp [h1, h2, h3, hne]

end Psi

namespace Psi

/-! ## setChatState lemmas (C3) -/

theorem setChatState_snd (opt : ComposingOpts) (env : ContactEnv)
    (st : ChatStateSess) (s : ChatState) :
    (setChatState opt env st s).2 = [] ∨
    (setChatState opt env st s).2
      = chatStateSends opt env st (privacyTransform opt s) := by
  unfold setChatState
  dsimp only
  repeat' split
  all_goals first
    | exact Or.inl rfl
    | exact Or.inr rfl

theorem mem_chatStateSends (opt : ComposingOpts) (env : ContactEnv)
    (st : ChatStateSess) (state C : ChatState)
    (hmem : C ∈ (chatStateSends opt env st state).map SentMsg.chatState) :
    C = ChatState.StatePaused ∨ C = state ∨ C = ChatState.StateNone := by
  unfold chatStateSends at hmem
  dsimp only at hmem
  repeat' split at hmem
  all_goals (simp_all; try tauto)

/-- The hop behaviour of the send block: when the last-sent state and the
target chat state are `Composing` and `Inactive` in either order, any
transmission carrying the target state consists of exactly the `Paused`
message followed by the target-state message. -/
theorem chatStateSends_hop (opt : ComposingOpts) (env : ContactEnv)
    (st : ChatStateSess) (state C : ChatState)
    (hdir : (st.lastChatState_ = ChatState.StateComposing ∧ C = ChatState.StateInactive)
      ∨ (st.lastChatState_ = ChatState.StateInactive ∧ C = ChatState.StateComposing))
    (hmem : C ∈ (chatStateSends opt env st state).map SentMsg.chatState) :
    (chatStateSends opt env st state).map SentMsg.chatState
      = [ChatState.StatePaused, C] := by
  have hCP : C ≠ ChatState.StatePaused := by
    rcases hdir with ⟨_, h⟩ | ⟨_, h⟩ <;> (rw [h]; intro hx; cases hx)
  have hCN : C ≠ ChatState.StateNone := by
    rcases hdir with ⟨_, h⟩ | ⟨_, h⟩ <;> (rw [h]; intro hx; cases hx)
  have hstate : state = C := by
    rcases mem_chatStateSends opt env st state C hmem with h | h | h
    · exact absurd h hCP
    · exact h.symm
    · exact absurd h hCN
  subst hstate
  rcases hdir with ⟨hlast, hC⟩ | ⟨hlast, hC⟩ <;> subst hC <;>
    (unfold chatStateSends at hmem ⊢
     by_cases hd : opt.dontSendComposingEvents <;>
       by_cases hk : st.contactChatState_ == ChatState.StateNone <;>
         by_cases hav : env.accountAvailable <;>
           by_cases hsce : st.sendComposingEvents_ <;>
             simp_all [composeEventsFor, hlast])

/-! ## Claim theorems -/

/-- C1 (counterexample): from a freshly created session, three remote
messages outside history replay with encryption flags
encrypted → plaintext → encrypted produce 3 System encryption-transition
views, not the 2 the claim states: `lastWasEncrypted_` is initialized to
`false`, so the first encrypted message already differs from the last-known
flag and synthesizes a view. -/
theorem C1_encryption_toggle_counterexample :
    countSystem (runSynth freshChatSt (encMsgs [true, false, true])).2 = 3 ∧
    countSystem (runSynth freshChatSt (encMsgs [true, false, true])).2 ≠ 2 := by
  refine ⟨by decide, by decide⟩

/-- C1 (amended): on a fresh session, outside history replay, a System
encryption-transition view is synthesized exactly when a message's encryption
flag differs from the session's last-known flag, which starts out `false`
(plaintext): the number of System views over any remote flag sequence is the
number of changes along `false :: flags`; in particular
encrypted → plaintext → encrypted gives 3. -/
theorem C1_encryption_transition_views (flags : List Bool) :
    countSystem (runSynth freshChatSt (encMsgs flags)).2 = countChanges false flags :=
  runSynth_countSystem flags freshChatSt rfl

/-- C2: with a hold active, every view submitted to `dispatchMessage` is
buffered (nothing displayed); releasing the hold displays all spooled views
strictly before all non-spooled views, each group in submission order, and
discards the buffer; with no hold active, `dispatchMessage` displays the view
immediately. -/
theorem C2_hold_flush_order :
    (∀ (st : DlgSt) (vs : List MessageView), st.delayed = none →
      (dispatchRun (holdMessages st true).1 vs).2 = [] ∧
      (holdMessages (dispatchRun (holdMessages st true).1 vs).1 false).2
        = vs.filter (fun mv => mv.spooled) ++ vs.filter (fun mv => !mv.spooled) ∧
      (holdMessages (dispatchRun (holdMessages st true).1 vs).1 false).1.delayed
        = none) ∧
    (∀ (st : DlgSt) (mv : MessageView), st.delayed = none →
      (dispatchMessage st mv).2 = [mv]) := by
  constructor
  · intro st vs hd
    have h1 : (holdMessages st true).1.delayed = some [] := by
      unfold holdMessages
      rw [if_pos (by decide)]
      rw [hd]
    have h2 := dispatchRun_buffered vs (holdMessages st true).1 [] h1
    have h3 : (dispatchRun (holdMessages st true).1 vs).1.delayed = some vs := by
      rw [h2]
      simp
    refine ⟨by rw [h2], ?_, ?_⟩
    · exact (holdMessages_flush _ vs h3).1
    · exact (holdMessages_flush _ vs h3).2
  · intro st mv hd
    unfold dispatchMessage
    rw [hd]
    exact displayMessage_snd st mv

/-- C2 (witness): history replay of one spooled view interleaved with two
live views flushes as spooled-then-live. -/
theorem C2_hold_flush_order_witness :
    (holdMessages (dispatchRun (holdMessages freshChatSt true).1
        [{ vtype := MVType.Message }, { vtype := MVType.Subject, spooled := true },
         { vtype := MVType.Message, text := "live2" }]).1 false).2
      = [{ vtype := MVType.Subject, spooled := true },
         { vtype := MVType.Message }, { vtype := MVType.Message, text := "live2" }] :=
  ((C2_hold_flush_order).1 freshChatSt
      [{ vtype := MVType.Message }, { vtype := MVType.Subject, spooled := true },
       { vtype := MVType.Message, text := "live2" }] rfl).2.1.trans (by decide)

/-- C3: whenever `setChatState` is invoked with the last-sent state
`Composing` and the resulting transmission carries chat state `Inactive`, the
sent sequence is exactly `Paused` then `Inactive` — never `Inactive` directly
after `Composing` — and symmetrically for the `Inactive → Composing`
direction. -/
theorem C3_paused_before_inactive :
    ∀ (opt : ComposingOpts) (env : ContactEnv) (st : ChatStateSess) (s : ChatState),
      (st.lastChatState_ = ChatState.StateComposing →
        ChatState.StateInactive ∈ ((setChatState opt env st s).2.map SentMsg.chatState) →
        ((setChatState opt env st s).2.map SentMsg.chatState)
          = [ChatState.StatePaused, ChatState.StateInactive]) ∧
      (st.lastChatState_ = ChatState.StateInactive →
        ChatState.StateComposing ∈ ((setChatState opt env st s).2.map SentMsg.chatState) →
        ((setChatState opt env st s).2.map SentMsg.chatState)
          = [ChatState.StatePaused, ChatState.StateComposing]) := by
  intro opt env st s
  constructor
  · intro hl hmem
    rcases setChatState_snd opt env st s with h | h
    · rw [h] at hmem
      simp at hmem
    · rw [h] at hmem ⊢
      exact chatStateSends_hop opt env st _ ChatState.StateInactive
        (Or.inl ⟨hl, rfl⟩) hmem
  · intro hl hmem
    rcases setChatState_snd opt env st s with h | h
    · rw [h] at hmem
      simp at hmem
    · rw [h] at hmem ⊢
      exact chatStateSends_hop opt env st _ ChatState.StateComposing
        (Or.inr ⟨hl, rfl⟩) hmem

/-- C3 (witness): a `Composing → Inactive` request with an available peer
transmits `Paused` then `Inactive`. -/
theorem C3_paused_before_inactive_witness :
    ((setChatState ⟨true, true, false⟩ ⟨false, true, true⟩
        ⟨false, ChatState.StateComposing, ChatState.StateActive⟩
        ChatState.StateInactive).2.map SentMsg.chatState)
      = [ChatState.StatePaused, ChatState.StateInactive] :=
  (C3_paused_before_inactive ⟨true, true, false⟩ ⟨false, true, true⟩
      ⟨false, ChatState.StateComposing, ChatState.StateActive⟩
      ChatState.StateInactive).1 rfl (by decide)

/-- C4: `pending_` is 0 whenever the session is the active tab — the
invariant is preserved by every dialog event; `displayMessage` increments
`pending_` by exactly 1 precisely for a non-System, non-Status, non-spooled,
non-carbon-sent view displayed while the tab is not active; and activation
resets `pending_` to 0, emitting `messagesRead` exactly when it was
positive. -/
theorem C4_pending_invariant :
    (∀ (evs : List DlgEvent) (st0 : DlgSt),
      PendingInv st0 → PendingInv (dlgRun st0 evs)) ∧
    (∀ (st : DlgSt) (mv : MessageView),
      (displayMessage st mv).1.pending = st.pending +
        (if mv.vtype ≠ MVType.System ∧ mv.vtype ≠ MVType.Status ∧ mv.spooled = false
            ∧ st.isActiveTab = false ∧ mv.carbonSent = false then 1 else 0)) ∧
    (∀ st : DlgSt, (activatedStep st).1.pending = 0 ∧
      ((activatedStep st).2 = [UiSignal.messagesRead] ↔ 0 < st.pending)) := by
  refine ⟨pendingInv_run, ?_, ?_⟩
  · intro st mv
    by_cases hc : (mv.vtype ≠ MVType.System ∧ mv.vtype ≠ MVType.Status
        ∧ mv.spooled = false ∧ st.isActiveTab = false ∧ mv.carbonSent = false)
    · rw [if_pos hc]
      obtain ⟨c1, c2, c3, c4, c5⟩ := hc
      exact displayMessage_pending_pos st mv (by simp [c1, c2, c3, c4, c5])
    · rw [if_neg hc]
      have hg : (!(mv.vtype == MVType.System) && !(mv.vtype == MVType.Status)
          && !mv.spooled && !st.isActiveTab && !mv.carbonSent) = false := by
        rw [Bool.eq_false_iff]
        intro hgt
        simp only [Bool.and_eq_true, Bool.not_eq_true', beq_eq_false_iff_ne,
          Bool.not_eq_true] at hgt
        exact hc ⟨hgt.1.1.1.1, hgt.1.1.1.2, hgt.1.1.2, hgt.1.2, hgt.2⟩
      rw [displayMessage_pending_neg st mv hg]
      simp
  · intro st
    constructor
    · unfold activatedStep
      dsimp only
      split
      · rfl
      · rename_i hp
        exact Nat.eq_zero_of_not_pos hp
    · unfold activatedStep
      dsimp only
      split
      · rename_i hp
        simp [hp]
      · rename_i hp
        simp [hp]

/-- C4 (witness): a remote Message view displayed while inactive followed by
activation leaves the invariant intact, and the displayed view bumped
`pending_` by 1. -/
theorem C4_pending_invariant_witness :
    PendingInv (dlgRun freshChatSt
      [DlgEvent.dispatch { vtype := MVType.Message }, DlgEvent.activated]) ∧
    (displayMessage freshChatSt { vtype := MVType.Message }).1.pending
      = freshChatSt.pending +
        (if (MVType.Message ≠ MVType.System ∧ MVType.Message ≠ MVType.Status
            ∧ false = false ∧ freshChatSt.isActiveTab = false ∧ false = false)
          then 1 else 0) :=
  ⟨(C4_pending_invariant).1 [DlgEvent.dispatch { vtype := MVType.Message },
      DlgEvent.activated] freshChatSt (fun _ => rfl),
   (C4_pending_invariant).2.1 freshChatSt { vtype := MVType.Message }⟩

/-- C5 (counterexample): the classifier does not find the longest registered
prefix in general.  In the sorted table `cmEx` (keys `a`, `abc` and the
boundary `~`), the name `abz` starts with the registered key `a`, whose
zero-requirement rule would match, yet `caps2client` returns `""`: the lower
bound of `abz` is `~`, its predecessor is `abc`, and `abz` does not start
with `abc`, so the shorter registered key `a` is never considered. -/
theorem C5_longest_pfx_counterexample :
    CMapSorted cmEx ∧ caps2client cmEx "abz" = "" ∧
    caps2clientClaim cmEx "abz" = "clientA" ∧
    caps2client cmEx "abz" ≠ caps2clientClaim cmEx "abz" := by
  refine ⟨by decide, by decide, by decide, by decide⟩

/-- C5 (amended): on an ascending-key table, `caps2client` consults exactly
one entry — the entry whose key equals `name`, or else the entry with the
greatest key below `name` provided `name` starts with that key — and scans
only that entry's rule list (first rule whose required substrings all occur
at or after the key's end; a rule with no required substrings always
matches); otherwise it returns `""`.  It therefore finds the longest
registered prefix only when that prefix is the immediate predecessor key. -/
theorem C5_predecessor_lookup (cm : ClientIconMap) (name : String)
    (hs : CMapSorted cm) : caps2client cm name = caps2clientAmended cm name := by
  unfold caps2client caps2clientAmended
  rw [lbSelect_sorted name cm hs]

/-- C5 (witness): on `cmEx`, the name `abcx` resolves through the
predecessor entry `abc` to `clientABC` in both formulations. -/
theorem C5_predecessor_lookup_witness :
    caps2client cmEx "abcx" = caps2clientAmended cmEx "abcx" :=
  C5_predecessor_lookup cmEx "abcx" (by decide)

/-- C6: when a custom (tier 3) rule matches the peer's bare address and its
iconset contains the requested icon, its icon is returned regardless of the
default icon and of any transport (tier 2) rule, with the first such custom
rule in registration order winning; and when no custom rule yields an icon,
the first tier-2 rule (in registration order) that matches and yields an icon
wins. -/
theorem C6_custom_rule_precedence :
    (∀ (defaultIcon : Option String) (useSvc : Bool) (lst : List IconsetItem)
        (pre : List IconsetItem) (c : IconsetItem) (post : List IconsetItem)
        (roster : RosterM) (jid : JidM) (iconName i : String),
      c.regexp.test (JidM.bare jid) = true →
      rosterIcon roster c.iconset iconName = some i →
      (∀ p ∈ pre, p.regexp.test (JidM.bare jid) = true →
        rosterIcon roster p.iconset iconName = none) →
      jid2icon defaultIcon useSvc lst (pre ++ c :: post) roster jid iconName
        = some i) ∧
    (∀ (defaultIcon : Option String) (useSvc : Bool)
        (pre2 : List IconsetItem) (t : IconsetItem) (post2 : List IconsetItem)
        (customList : List IconsetItem) (roster : RosterM) (jid : JidM)
        (iconName i : String),
      (jid.node.isEmpty || useSvc) = true →
      tier2Matches t jid = true →
      rosterIcon roster t.iconset iconName = some i →
      (∀ p ∈ pre2, tier2Matches p jid = true →
        rosterIcon roster p.iconset iconName = none) →
      (∀ p ∈ customList, p.regexp.test (JidM.bare jid) = true →
        rosterIcon roster p.iconset iconName = none) →
      jid2icon defaultIcon useSvc (pre2 ++ t :: post2) customList roster jid iconName
        = some i) := by
  constructor
  · intro d useSvc lst pre c post roster jid iconName i hm hi hpre
    unfold jid2icon
    dsimp only
    rw [tierScan_append_none roster iconName _ pre (c :: post) hpre,
        tierScan_cons_hit roster iconName _ c post i hm hi]
  · intro d useSvc pre2 t post2 customList roster jid iconName i hen hm hi hpre hcust
    unfold jid2icon
    dsimp only
    rw [tierScan_none roster iconName _ customList hcust]
    rw [hen]
    rw [tierScan_append_none roster iconName _ pre2 (t :: post2) hpre,
        tierScan_cons_hit roster iconName _ t post2 i hm hi]
    rfl

/-- C6 (witness): a transport rule on the domain and a custom rule on the
full bare address both match and both iconsets contain the icon; the custom
rule's icon `C` wins. -/
theorem C6_custom_rule_precedence_witness :
    jid2icon (some "D") true
      [{ regexp := { isEmpty := false, test := fun s => s == "icq.example.org" },
         iconset := "tset" }]
      [{ regexp := { isEmpty := false, test := fun s => s == "alice@icq.example.org" },
         iconset := "cset" }]
      [("tset", [("status/online", "T")]), ("cset", [("status/online", "C")])]
      { node := "alice", domain := "icq.example.org" } "status/online" = some "C" :=
  (C6_custom_rule_precedence).1 (some "D") true
    [{ regexp := { isEmpty := false, test := fun s => s == "icq.example.org" },
       iconset := "tset" }]
    []
    { regexp := { isEmpty := false, test := fun s => s == "alice@icq.example.org" },
      iconset := "cset" }
    []
    [("tset", [("status/online", "T")]), ("cset", [("status/online", "C")])]
    { node := "alice", domain := "icq.example.org" } "status/online" "C"
    (by decide) (by decide) (by intro p hp; cases hp)

/-- C7: when a transmission is due (the feature guard holds) but the contact
is unreachable — no relevant user-list entry, or its first entry not
available — `setChatState` sends nothing, clears `sendComposingEvents_`,
resets `lastChatState_` to `StateNone`, and leaves the rest of the session
state untouched (no error path). -/
theorem C7_unreachable_reset (opt : ComposingOpts) (env : ContactEnv)
    (st : ChatStateSess) (s : ChatState)
    (h1 : opt.sendComposingEvents = true)
    (h2 : st.sendComposingEvents_ = true ∨ st.contactChatState_ ≠ ChatState.StateNone)
    (h3 : env.ulEmpty = true ∨ env.firstAvailable = false) :
    setChatState opt env st s
      = ({ st with sendComposingEvents_ := false, lastChatState_ := ChatState.StateNone }, []) := by
  unfold setChatState
  have hg : (opt.sendComposingEvents
      && (st.sendComposingEvents_ || !(st.contactChatState_ == ChatState.StateNone)))
      = true := by
    rw [h1, Bool.true_and, Bool.or_eq_true]
    rcases h2 with h | h
    · exact Or.inl h
    · refine Or.inr ?_
      rw [Bool.not_eq_true']
      exact beq_eq_false_iff_ne.mpr h
  rw [hg]
  rcases h3 with h | h
  · simp [h]
  · cases hu : env.ulEmpty with
    | true => simp
    | false => simp [h]

/-- C7 (witness): empty user list while composing events were requested. -/
theorem C7_unreachable_reset_witness :
    setChatState ⟨true, true, false⟩ ⟨true, true, true⟩
        ⟨true, ChatState.StateComposing, ChatState.StateActive⟩ ChatState.StateComposing
      = ({ sendComposingEvents_ := false, lastChatState_ := ChatState.StateNone,
            contactChatState_ := ChatState.StateActive }, []) :=
  C7_unreachable_reset ⟨true, true, false⟩ ⟨true, true, true⟩
    ⟨true, ChatState.StateComposing, ChatState.StateActive⟩ ChatState.StateComposing
    rfl (Or.inl rfl) (Or.inl rfl)

/-- C8 (counterexample): the suppression test works on the URL→description
map, not the list: for body `hello` with the two-element URL list
`[("hello", ""), ("hello", "")]` the map collapses to a single entry, so the
URLs view is suppressed although the list does not consist of a single URL
as the claim requires. -/
theorem C8_oob_duplicate_counterexample :
    (({ body := "hello", urlList := [("hello", ""), ("hello", "")] } : Message).urlList
      ≠ []) ∧
    ¬ claimSuppressed "hello" [("hello", ""), ("hello", "")] ∧
    hasUrlsView (appendSynth freshChatSt
      { body := "hello", urlList := [("hello", ""), ("hello", "")] } false).2 = false := by
  refine ⟨by decide, by decide, by decide⟩

/-- C8 (amended): for every message with a non-empty URL list,
`appendMessage` synthesizes a URLs view except exactly when all URL texts in
the list equal the message body and the last entry's description is empty
(the single-URL case of the claim is the special case of this condition). -/
theorem C8_urls_view_iff (st : DlgSt) (m : Message) (locl : Bool)
    (h : m.urlList ≠ []) :
    hasUrlsView (appendSynth st m locl).2 = true
      ↔ ¬ amendedSuppressed m.body m.urlList := by
  rw [hasUrlsView_appendSynth st m locl h]
  unfold amendedSuppressed
  constructor
  · intro hb hcond
    rw [(urlsSuppressed_iff m.body m.urlList h).mpr ⟨hcond.2.1, hcond.2.2⟩] at hb
    exact absurd hb (by decide)
  · intro hn
    cases hval : urlsSuppressed m.body m.urlList with
    | false => rfl
    | true =>
      obtain ⟨hall, hlast⟩ := (urlsSuppressed_iff m.body m.urlList h).mp hval
      exact absurd ⟨h, hall, hlast⟩ hn

/-- C8 (witness): body `hello` with the single link `("hello", "desc")`
yields a URLs view. -/
theorem C8_urls_view_iff_witness :
    hasUrlsView (appendSynth freshChatSt
      { body := "hello", urlList := [("hello", "desc")] } false).2 = true :=
  (C8_urls_view_iff freshChatSt
      { body := "hello", urlList := [("hello", "desc")] } false (by decide)).mpr
    (by decide)

/-- C9: with a non-empty node part and the use-transport-icons option
disabled, the transport tier is never evaluated: the result of `jid2icon` is
independent of the transport rule list. -/
theorem C9_transport_tier_gated (defaultIcon : Option String)
    (list1 list2 customList : List IconsetItem) (roster : RosterM)
    (jid : JidM) (iconName : String) (h : jid.node.isEmpty = false) :
    jid2icon defaultIcon false list1 customList roster jid iconName
      = jid2icon defaultIcon false list2 customList roster jid iconName := by
  unfold jid2icon
  dsimp only
  rw [h]
  cases tierScan roster iconName (fun it => it.regexp.test jid.bare) customList with
  | some i => rfl
  | none => rfl

/-- C9 (witness): with node `alice` and the option off, an always-matching
transport rule changes nothing. -/
theorem C9_transport_tier_gated_witness :
    jid2icon (some "D") false
      [{ regexp := { isEmpty := false, test := fun _ => true }, iconset := "tset" }] []
      [("tset", [("status/online", "T")])]
      { node := "alice", domain := "icq.example.org" } "status/online"
      = jid2icon (some "D") false [] []
        [("tset", [("status/online", "T")])]
        { node := "alice", domain := "icq.example.org" } "status/online" :=
  C9_transport_tier_gated (some "D")
    [{ regexp := { isEmpty := false, test := fun _ => true }, iconset := "tset" }] []
    [] [("tset", [("status/online", "T")])]
    { node := "alice", domain := "icq.example.org" } "status/online" rfl

/-- C10: `OptionsTreeWriter::write` reports success unconditionally: for
every configuration, options tree and output-device state it returns
`true`. -/
theorem C10_write_returns_true :
    ∀ (configName configVersion configNS : String) (options : OptionsTree)
      (device : QIODeviceState),
      (OptionsTreeWriter.write configName configVersion configNS options device).2
        = true := by
  intro n v ns t dev
  rfl

end Psi
